import Mathlib

/-!
Verification development for the recurrence expansion engine of the
recurring-date-picker repository.

The repository ships the engine inside src/store/recurringDateStore.ts
(the store method generateDates), which is declared and documented in the
README but whose body is not among the provided source files.  The engine
is therefore modelled from the specification (spec.md sections 3, 4 and 7),
faithfully to its words.  Calendar dates are represented both as records
(year, month 1..12, day 1..31) and as rata-die day numbers (days since the
proleptic Gregorian date 0001-01-01, which has day number 1); the engine
works on day numbers, with toRd translating between the two.
-/

/-- A naive calendar date: year, month (1 to 12), day of month. -/
structure Date where
  year : Nat
  month : Nat
  day : Nat
deriving DecidableEq

/-- Gregorian leap-year rule. -/
def isLeapYear (y : Nat) : Bool :=
  (y % 4 == 0 && y % 100 != 0) || y % 400 == 0

/-- Number of days in month m (1 to 12) of year y; 0 for an index outside 1..12. -/
def daysInMonth (y : Nat) (m : Nat) : Nat :=
  match m with
  | 1 => 31
  | 2 => if isLeapYear y then 29 else 28
  | 3 => 31
  | 4 => 30
  | 5 => 31
  | 6 => 30
  | 7 => 31
  | 8 => 31
  | 9 => 30
  | 10 => 31
  | 11 => 30
  | 12 => 31
  | _ => 0

/-- 1 in a leap year, else 0. -/
def leapAdj (y : Nat) : Nat := if isLeapYear y then 1 else 0

/-- Days of year y that precede the first day of month m (1 to 12). -/
def daysBeforeMonth (y : Nat) (m : Nat) : Nat :=
  match m with
  | 1 => 0
  | 2 => 31
  | 3 => 59 + leapAdj y
  | 4 => 90 + leapAdj y
  | 5 => 120 + leapAdj y
  | 6 => 151 + leapAdj y
  | 7 => 181 + leapAdj y
  | 8 => 212 + leapAdj y
  | 9 => 243 + leapAdj y
  | 10 => 273 + leapAdj y
  | 11 => 304 + leapAdj y
  | 12 => 334 + leapAdj y
  | _ => 0

/-- Days strictly before January 1 of year y, counting from day number 0. -/
def daysBeforeYear (y : Nat) : Nat :=
  365 * (y - 1) + (y - 1) / 4 + (y - 1) / 400 - (y - 1) / 100

/-- Rata-die day number of a date; 0001-01-01 is day 1. -/
def toRd (d : Date) : Nat :=
  daysBeforeYear d.year + daysBeforeMonth d.year d.month + d.day

/-- Day of week of a day number, 0 = Sunday .. 6 = Saturday
(0001-01-01, day number 1, was a Monday). -/
def dayOfWeek (rd : Nat) : Nat := rd % 7

/-- A well-formed calendar date. -/
def validDate (d : Date) : Prop :=
  1 ≤ d.year ∧ 1 ≤ d.month ∧ d.month ≤ 12 ∧ 1 ≤ d.day ∧ d.day ≤ daysInMonth d.year d.month

instance (d : Date) : Decidable (validDate d) := by
  unfold validDate
  exact inferInstance

/-- Absolute month index: month m (1 to 12) of year y is month 12 * y + (m - 1). -/
def monthIndex (y : Nat) (m : Nat) : Nat := 12 * y + (m - 1)

/-- Day number of the first day of absolute month t. -/
def monthStart (t : Nat) : Nat := toRd ⟨t / 12, t % 12 + 1, 1⟩

/-- Modelled from the spec (section 3): the recurrence type of a pattern.
The engine source, src/store/recurringDateStore.ts, is not among the
provided files; these definitions follow spec.md. -/
inductive RecurrenceType where
  | daily
  | weekly
  | monthly
  | yearly
deriving DecidableEq

/-- Modelled from the spec (section 3): the termination condition.  The end
date is carried as a day number. -/
inductive Termination where
  | endDate (d : Nat)
  | occurrenceCount (n : Nat)
  | unbounded
deriving DecidableEq

/-- Modelled from the spec (section 3): the engine input.  Type-specific
fields are optional; only the fields relevant to the recurrence type are
meaningful. -/
structure RecurrencePattern where
  anchorDate : Date
  recurrenceType : RecurrenceType
  interval : Nat
  weekDays : List Nat
  monthDay : Option Nat
  monthWeek : Option Nat
  monthWeekDay : Option Nat
  yearMonth : Option Nat
  yearDay : Option Nat
  termination : Termination

/-- Modelled from the spec (section 7): the single error kind. -/
inductive GenError where
  | invalidPattern
deriving DecidableEq

/-- Modelled from the spec (sections 4.5 and 7): validity of the
termination condition relative to the anchor day number. -/
def validTermination (anchorRd : Nat) : Termination → Bool
  | .endDate d => decide (anchorRd ≤ d)
  | .occurrenceCount n => decide (1 ≤ n)
  | .unbounded => true

/-- Modelled from the spec (sections 3 and 7): validity of the
type-specific configuration.  For Monthly, exactly one of mode A
(monthDay) and mode B (monthWeek plus monthWeekDay) must be populated. -/
def validTypeConfig (p : RecurrencePattern) : Bool :=
  match p.recurrenceType with
  | .daily => true
  | .weekly =>
      !p.weekDays.isEmpty && p.weekDays.all (fun w => decide (w ≤ 6)) &&
        decide p.weekDays.Nodup
  | .monthly =>
      match p.monthDay, p.monthWeek, p.monthWeekDay with
      | some d, none, none => decide (1 ≤ d) && decide (d ≤ 31)
      | none, some w, some wd => decide (1 ≤ w) && decide (w ≤ 5) && decide (wd ≤ 6)
      | _, _, _ => false
  | .yearly =>
      match p.yearMonth, p.yearDay with
      | some m, some d => decide (m ≤ 11) && decide (1 ≤ d) && decide (d ≤ 31)
      | _, _ => false

/-- Modelled from the spec (sections 3 and 7): the invariants checked
before expansion begins. -/
def validatePattern (p : RecurrencePattern) : Bool :=
  decide (1 ≤ p.interval) && validTermination (toRd p.anchorDate) p.termination &&
    validTypeConfig p

/-- Modelled from the spec (section 4.3): the candidates of week k, one per
selected weekday in ascending weekday order, counted from the Sunday that
starts the anchor week (sunday0). -/
def weeklyCandidates (weekDays : List Nat) (sunday0 : Nat) (interval : Nat) (k : Nat) :
    List Nat :=
  ((List.range 7).filter (fun w => weekDays.contains w)).map
    (fun w => sunday0 + 7 * (k * interval) + w)

/-- Modelled from the spec (section 4.4, mode A): day monthDay of absolute
month t, or none when the month is shorter than monthDay (skip, no clamp,
no roll). -/
def monthlyModeACandidate (monthDay : Nat) (t : Nat) : Option Nat :=
  if monthDay ≤ daysInMonth (t / 12) (t % 12 + 1) then
    some (toRd ⟨t / 12, t % 12 + 1, monthDay⟩)
  else
    none

/-- Days from the 1st of month m of year y to the first weekday wd
(0 = Sunday) in that month. -/
def weekdayOffset (wd : Nat) (y : Nat) (m : Nat) : Nat :=
  (wd + 7 - dayOfWeek (toRd ⟨y, m, 1⟩)) % 7

/-- Modelled from the spec (section 4.4, mode B): the day of month of the
week-th occurrence of weekday wd in month m of year y, counting from the
1st; week 5 means the last occurrence; for week in 1..4 a month lacking
that many occurrences yields none (skip, no roll). -/
def nthWeekdayOfMonth (week : Nat) (wd : Nat) (y : Nat) (m : Nat) : Option Nat :=
  if week == 5 then
    some (1 + weekdayOffset wd y m +
      7 * ((daysInMonth y m - 1 - weekdayOffset wd y m) / 7))
  else
    if 1 + weekdayOffset wd y m + 7 * (week - 1) ≤ daysInMonth y m then
      some (1 + weekdayOffset wd y m + 7 * (week - 1))
    else
      none

/-- Modelled from the spec (section 4.4, mode B): the candidate day number
for absolute month t. -/
def monthlyModeBCandidate (week : Nat) (wd : Nat) (t : Nat) : Option Nat :=
  (nthWeekdayOfMonth week wd (t / 12) (t % 12 + 1)).map
    (fun day => toRd ⟨t / 12, t % 12 + 1, day⟩)

/-- Modelled from the spec (section 4.5): day yearDay of month
yearMonth (0-based) of year y, or none when that day does not exist in
that year (in particular February 29 of a non-leap year): skip, no roll. -/
def yearlyCandidate (yearMonth : Nat) (yearDay : Nat) (y : Nat) : Option Nat :=
  if yearDay ≤ daysInMonth y (yearMonth + 1) then
    some (toRd ⟨y, yearMonth + 1, yearDay⟩)
  else
    none

/-- Modelled from the spec (section 4): the candidate day numbers produced
at step k, in ascending order; the empty list when the step is skipped. -/
def candidatesFor (p : RecurrencePattern) (k : Nat) : List Nat :=
  match p.recurrenceType with
  | .daily => [toRd p.anchorDate + k * p.interval]
  | .weekly =>
      weeklyCandidates p.weekDays (toRd p.anchorDate - toRd p.anchorDate % 7) p.interval k
  | .monthly =>
      match p.monthDay with
      | some d =>
          (monthlyModeACandidate d
            (monthIndex p.anchorDate.year p.anchorDate.month + k * p.interval)).toList
      | none =>
          match p.monthWeek, p.monthWeekDay with
          | some w, some wd =>
              (monthlyModeBCandidate w wd
                (monthIndex p.anchorDate.year p.anchorDate.month + k * p.interval)).toList
          | _, _ => []
  | .yearly =>
      match p.yearMonth, p.yearDay with
      | some ym, some yd =>
          (yearlyCandidate ym yd (p.anchorDate.year + k * p.interval)).toList
      | _, _ => []

/-- Modelled from the spec (section 4.5): cap on emitted occurrences for
Unbounded patterns; a configuration constant. -/
def maxOccurrences : Nat := 100

/-- Modelled from the spec (section 4.5): cap on total loop iterations
(steps examined, emitted or skipped); a configuration constant. -/
def maxIterations : Nat := 1000

/-- Modelled from the spec (section 4.5): the termination check performed
before emitting a candidate c when the emitted count is as given.  EndDate
stops once the candidate exceeds the end day; OccurrenceCount stops once n
occurrences are emitted; Unbounded stops at the safety cap. -/
def stopNow (t : Termination) (emitted : Nat) (c : Nat) : Bool :=
  match t with
  | .endDate d => decide (d < c)
  | .occurrenceCount n => decide (n ≤ emitted)
  | .unbounded => decide (maxOccurrences ≤ emitted)

/-- Modelled from the spec (section 4.5): process the candidates of one
step in order.  A candidate strictly before the anchor is discarded; the
termination condition is checked before emitting; returns the updated
emitted count, the accumulator (newest first), and whether to stop. -/
def processCandidates (anchorRd : Nat) (t : Termination) :
    List Nat → Nat → List Nat → Nat × List Nat × Bool
  | [], emitted, acc => (emitted, acc, false)
  | c :: rest, emitted, acc =>
      if c < anchorRd then
        processCandidates anchorRd t rest emitted acc
      else if stopNow t emitted c then
        (emitted, acc, true)
      else
        processCandidates anchorRd t rest (emitted + 1) (c :: acc)

/-- Modelled from the spec (section 4.5): the shared termination and
emission loop.  Arguments after the pattern: remaining fuel (each loop
iteration, emitting or skipping, consumes one unit), the step counter k,
the emitted count, and the accumulator (newest first). -/
def expandFrom (p : RecurrencePattern) : Nat → Nat → Nat → List Nat → List Nat
  | 0, _, _, acc => acc.reverse
  | fuel + 1, k, emitted, acc =>
      match processCandidates (toRd p.anchorDate) p.termination (candidatesFor p k)
          emitted acc with
      | (emitted2, acc2, stop) =>
          if stop then acc2.reverse else expandFrom p fuel (k + 1) emitted2 acc2

/-- Modelled from the spec (sections 4.1 and 7): validate, then expand.
On success the result is the ascending list of occurrence day numbers. -/
def generate (p : RecurrencePattern) : Except GenError (List Nat) :=
  if validatePattern p then
    .ok (expandFrom p maxIterations 0 0 [])
  else
    .error .invalidPattern

/-- Scenario 1 of the spec (section 8): Daily, interval 2, three occurrences. -/
def pDaily : RecurrencePattern :=
  ⟨⟨2024, 1, 1⟩, .daily, 2, [], none, none, none, none, none, .occurrenceCount 3⟩

/-- Scenario 2 of the spec (section 8): Weekly on Monday and Wednesday. -/
def pWeekly : RecurrencePattern :=
  ⟨⟨2024, 1, 1⟩, .weekly, 1, [1, 3], none, none, none, none, none, .occurrenceCount 4⟩

/-- Weekly pattern anchored mid-week (Tuesday 2024-01-02) with Monday and
Wednesday selected: the week-0 Monday falls before the anchor. -/
def pWeeklyMidweek : RecurrencePattern :=
  ⟨⟨2024, 1, 2⟩, .weekly, 1, [1, 3], none, none, none, none, none, .occurrenceCount 3⟩

/-- Scenario 3 of the spec (section 8): Monthly mode A on day 31. -/
def pMonthlyA : RecurrencePattern :=
  ⟨⟨2024, 1, 31⟩, .monthly, 1, [], some 31, none, none, none, none, .occurrenceCount 3⟩

/-- Scenario 4 of the spec (section 8): Monthly mode B, second Tuesday. -/
def pMonthlyB : RecurrencePattern :=
  ⟨⟨2024, 1, 1⟩, .monthly, 1, [], none, some 2, some 2, none, none, .occurrenceCount 2⟩

/-- Scenario 5 of the spec (section 8): Yearly on February 29. -/
def pYearlyFeb29 : RecurrencePattern :=
  ⟨⟨2024, 1, 1⟩, .yearly, 1, [], none, none, none, some 1, some 29, .occurrenceCount 2⟩

/-- Scenario 6 of the spec (section 8): Weekly with an empty weekday set. -/
def pEmptyWeekly : RecurrencePattern :=
  ⟨⟨2024, 1, 1⟩, .weekly, 1, [], none, none, none, none, none, .occurrenceCount 4⟩

/-- Daily pattern ending exactly on a candidate (2024-01-05). -/
def pEndDateEq : RecurrencePattern :=
  ⟨⟨2024, 1, 1⟩, .daily, 2, [], none, none, none, none, none,
    .endDate (toRd ⟨2024, 1, 5⟩)⟩

/-- Daily pattern whose end date (2024-01-06) is one day before the next
candidate (2024-01-07). -/
def pEndDateNear : RecurrencePattern :=
  ⟨⟨2024, 1, 1⟩, .daily, 2, [], none, none, none, none, none,
    .endDate (toRd ⟨2024, 1, 6⟩)⟩

/-- A pathological valid pattern that skips every candidate: Yearly on
April 31, a day that exists in no year, with Unbounded termination. -/
def pAllSkipped : RecurrencePattern :=
  ⟨⟨2024, 1, 1⟩, .yearly, 1, [], none, none, none, some 3, some 31, .unbounded⟩

/-- An Unbounded Daily pattern. -/
def pUnboundedDaily : RecurrencePattern :=
  ⟨⟨2024, 1, 1⟩, .daily, 1, [], none, none, none, none, none, .unbounded⟩

/-- The public input type of the store engine, embedded from the
RecurrenceConfig declaration in the repository README
(src/unnamed/part_000, lines 182 to 192): every field is optional and
independent; endDate is declared there as an optional Date-or-null. -/
structure RecurrenceConfig where
  interval : Option Nat
  weekDays : Option (List Nat)
  monthDay : Option Nat
  monthWeek : Option Nat
  monthWeekDay : Option Nat
  yearMonth : Option Nat
  yearDay : Option Nat
  endAfterOccurrences : Option Nat
  endDate : Option (Option Date)

/-- Modelled from the spec: translation of a RecurrenceConfig (plus the
store fields startDate and recurrenceType that generateDates reads) into
an engine pattern.  The body of generateDates in
src/store/recurringDateStore.ts is not among the provided files; a missing
interval defaults to 1 and endAfterOccurrences takes precedence over
endDate when both are populated. -/
def configToPattern (startDate : Date) (rt : RecurrenceType) (cfg : RecurrenceConfig) :
    RecurrencePattern where
  anchorDate := startDate
  recurrenceType := rt
  interval := cfg.interval.getD 1
  weekDays := cfg.weekDays.getD []
  monthDay := cfg.monthDay
  monthWeek := cfg.monthWeek
  monthWeekDay := cfg.monthWeekDay
  yearMonth := cfg.yearMonth
  yearDay := cfg.yearDay
  termination :=
    match cfg.endAfterOccurrences, cfg.endDate with
    | some n, _ => .occurrenceCount n
    | none, some (some d) => .endDate (toRd d)
    | _, _ => .unbounded

/-- Modelled from the spec: the store method generateDates, as a function
of the store fields it reads (startDate, recurrenceType,
recurrenceConfig).  It accepts any well-typed RecurrenceConfig; a rejected
pattern yields the empty date list. -/
def generateDates (startDate : Date) (rt : RecurrenceType) (cfg : RecurrenceConfig) :
    List Nat :=
  match generate (configToPattern startDate rt cfg) with
  | .ok l => l
  | .error _ => []

/-- A config populating both termination fields simultaneously. -/
def cfgBothTermination : RecurrenceConfig :=
  ⟨some 2, none, none, none, none, none, none, some 3, some (some ⟨2024, 12, 31⟩)⟩

/-- A config populating neither termination field. -/
def cfgNoTermination : RecurrenceConfig :=
  ⟨some 1, none, none, none, none, none, none, none, none⟩

/-! ## Calendar arithmetic lemmas -/

theorem isLeapYear_iff (y : Nat) :
    isLeapYear y = true ↔ ((y % 4 = 0 ∧ y % 100 ≠ 0) ∨ y % 400 = 0) := by
  unfold isLeapYear
  simp [Bool.or_eq_true, Bool.and_eq_true, beq_iff_eq, bne_iff_ne]

theorem leapAdj_eq (y : Nat) :
    leapAdj y = if (y % 4 = 0 ∧ y % 100 ≠ 0) ∨ y % 400 = 0 then 1 else 0 := by
  unfold leapAdj
  by_cases hc : (y % 4 = 0 ∧ y % 100 ≠ 0) ∨ y % 400 = 0
  · rw [if_pos ((isLeapYear_iff y).mpr hc), if_pos hc]
  · rw [if_neg (fun h => hc ((isLeapYear_iff y).mp h)), if_neg hc]

theorem daysInMonth_feb (y : Nat) : daysInMonth y 2 = 28 + leapAdj y := by
  show (if isLeapYear y then 29 else 28) = 28 + leapAdj y
  unfold leapAdj
  split <;> rfl

theorem daysBeforeMonth_succ (y m : Nat) (h1 : 1 ≤ m) (h2 : m ≤ 11) :
    daysBeforeMonth y (m + 1) = daysBeforeMonth y m + daysInMonth y m := by
  have d2 := daysInMonth_feb y
  have d1 : daysInMonth y 1 = 31 := rfl
  have d3 : daysInMonth y 3 = 31 := rfl
  have d4 : daysInMonth y 4 = 30 := rfl
  have d5 : daysInMonth y 5 = 31 := rfl
  have d6 : daysInMonth y 6 = 30 := rfl
  have d7 : daysInMonth y 7 = 31 := rfl
  have d8 : daysInMonth y 8 = 31 := rfl
  have d9 : daysInMonth y 9 = 30 := rfl
  have d10 : daysInMonth y 10 = 31 := rfl
  have d11 : daysInMonth y 11 = 30 := rfl
  have e1 : daysBeforeMonth y 1 = 0 := rfl
  have e2 : daysBeforeMonth y 2 = 31 := rfl
  have e3 : daysBeforeMonth y 3 = 59 + leapAdj y := rfl
  have e4 : daysBeforeMonth y 4 = 90 + leapAdj y := rfl
  have e5 : daysBeforeMonth y 5 = 120 + leapAdj y := rfl
  have e6 : daysBeforeMonth y 6 = 151 + leapAdj y := rfl
  have e7 : daysBeforeMonth y 7 = 181 + leapAdj y := rfl
  have e8 : daysBeforeMonth y 8 = 212 + leapAdj y := rfl
  have e9 : daysBeforeMonth y 9 = 243 + leapAdj y := rfl
  have e10 : daysBeforeMonth y 10 = 273 + leapAdj y := rfl
  have e11 : daysBeforeMonth y 11 = 304 + leapAdj y := rfl
  have e12 : daysBeforeMonth y 12 = 334 + leapAdj y := rfl
  interval_cases m <;> norm_num <;> omega

theorem daysBeforeYear_succ (y : Nat) (h : 1 ≤ y) :
    daysBeforeYear (y + 1) = daysBeforeYear y + 365 + leapAdj y := by
  rw [leapAdj_eq]
  have e : y + 1 - 1 = y := rfl
  unfold daysBeforeYear
  rw [e]
  have h4 : y / 4 = (y - 1) / 4 + (if y % 4 = 0 then 1 else 0) := by
    by_cases h0 : y % 4 = 0
    · rw [if_pos h0]; omega
    · rw [if_neg h0]; omega
  have h100 : y / 100 = (y - 1) / 100 + (if y % 100 = 0 then 1 else 0) := by
    by_cases h0 : y % 100 = 0
    · rw [if_pos h0]; omega
    · rw [if_neg h0]; omega
  have h400 : y / 400 = (y - 1) / 400 + (if y % 400 = 0 then 1 else 0) := by
    by_cases h0 : y % 400 = 0
    · rw [if_pos h0]; omega
    · rw [if_neg h0]; omega
  have m100 : y % 100 = 0 → y % 4 = 0 := by omega
  have m400 : y % 400 = 0 → y % 100 = 0 := by omega
  by_cases c4 : y % 4 = 0 <;> by_cases c100 : y % 100 = 0 <;> by_cases c400 : y % 400 = 0 <;>
    simp only [c4, c100, c400, if_true, if_false, and_true, and_false, true_and, false_and,
      not_true, not_false_iff, or_true, or_false, true_or, false_or, ne_eq,
      not_false_eq_true, ite_true, ite_false] at h4 h100 h400 ⊢ <;>
    omega

theorem monthStart_succ (t : Nat) (h : 12 ≤ t) :
    monthStart (t + 1) = monthStart t + daysInMonth (t / 12) (t % 12 + 1) := by
  by_cases hr : t % 12 = 11
  · have h1 : (t + 1) / 12 = t / 12 + 1 := by omega
    have h2 : (t + 1) % 12 = 0 := by omega
    have hy : 1 ≤ t / 12 := by omega
    show toRd ⟨(t + 1) / 12, (t + 1) % 12 + 1, 1⟩ =
      toRd ⟨t / 12, t % 12 + 1, 1⟩ + daysInMonth (t / 12) (t % 12 + 1)
    rw [h1, h2, hr]
    show daysBeforeYear (t / 12 + 1) + daysBeforeMonth (t / 12 + 1) 1 + 1 =
      daysBeforeYear (t / 12) + daysBeforeMonth (t / 12) 12 + 1 + daysInMonth (t / 12) 12
    have e1 : daysBeforeMonth (t / 12 + 1) 1 = 0 := rfl
    have e2 : daysBeforeMonth (t / 12) 12 = 334 + leapAdj (t / 12) := rfl
    have e3 : daysInMonth (t / 12) 12 = 31 := rfl
    rw [daysBeforeYear_succ _ hy, e1, e2, e3]
    omega
  · have h1 : (t + 1) / 12 = t / 12 := by omega
    have h2 : (t + 1) % 12 = t % 12 + 1 := by omega
    show toRd ⟨(t + 1) / 12, (t + 1) % 12 + 1, 1⟩ =
      toRd ⟨t / 12, t % 12 + 1, 1⟩ + daysInMonth (t / 12) (t % 12 + 1)
    rw [h1, h2]
    show daysBeforeYear (t / 12) + daysBeforeMonth (t / 12) (t % 12 + 1 + 1) + 1 =
      daysBeforeYear (t / 12) + daysBeforeMonth (t / 12) (t % 12 + 1) + 1 +
        daysInMonth (t / 12) (t % 12 + 1)
    have := daysBeforeMonth_succ (t / 12) (t % 12 + 1) (by omega) (by omega)
    omega

theorem monthStart_add_le (t t' : Nat) (h12 : 12 ≤ t) (hlt : t < t') :
    monthStart t + daysInMonth (t / 12) (t % 12 + 1) ≤ monthStart t' := by
  have hlt' : t + 1 ≤ t' := hlt
  clear hlt
  induction t', hlt' using Nat.le_induction with
  | base => rw [monthStart_succ t h12]
  | succ n hn ih =>
      have hs : monthStart n ≤ monthStart (n + 1) := by
        rw [monthStart_succ n (by omega)]
        omega
      exact le_trans ih hs

theorem toRd_eq_monthStart (y m d : Nat) (h1 : 1 ≤ m) (h2 : m ≤ 12) (h3 : 1 ≤ d) :
    toRd ⟨y, m, d⟩ = monthStart (12 * y + (m - 1)) + (d - 1) := by
  have e1 : (12 * y + (m - 1)) / 12 = y := by omega
  have e2 : (12 * y + (m - 1)) % 12 + 1 = m := by omega
  show daysBeforeYear y + daysBeforeMonth y m + d =
    daysBeforeYear ((12 * y + (m - 1)) / 12) +
      daysBeforeMonth ((12 * y + (m - 1)) / 12) ((12 * y + (m - 1)) % 12 + 1) + 1 + (d - 1)
  rw [e1, e2]
  omega

theorem monthStart_day_lt (t t' d d' : Nat) (h12 : 12 ≤ t) (hlt : t < t')
    (hd1 : 1 ≤ d) (hd2 : d ≤ daysInMonth (t / 12) (t % 12 + 1)) (hd' : 1 ≤ d') :
    monthStart t + (d - 1) < monthStart t' + (d' - 1) := by
  have := monthStart_add_le t t' h12 hlt
  omega

theorem daysInMonth_ge (y m : Nat) (h1 : 1 ≤ m) (h2 : m ≤ 12) :
    28 ≤ daysInMonth y m := by
  have d2 := daysInMonth_feb y
  have d1 : daysInMonth y 1 = 31 := rfl
  have d3 : daysInMonth y 3 = 31 := rfl
  have d4 : daysInMonth y 4 = 30 := rfl
  have d5 : daysInMonth y 5 = 31 := rfl
  have d6 : daysInMonth y 6 = 30 := rfl
  have d7 : daysInMonth y 7 = 31 := rfl
  have d8 : daysInMonth y 8 = 31 := rfl
  have d9 : daysInMonth y 9 = 30 := rfl
  have d10 : daysInMonth y 10 = 31 := rfl
  have d11 : daysInMonth y 11 = 30 := rfl
  have d12 : daysInMonth y 12 = 31 := rfl
  interval_cases m <;> omega

theorem weekdayOffset_lt (wd y m : Nat) : weekdayOffset wd y m < 7 := by
  unfold weekdayOffset
  omega

theorem nthWeekdayOfMonth_bounds (week wd y m day : Nat) (h1 : 1 ≤ m) (h2 : m ≤ 12)
    (h : nthWeekdayOfMonth week wd y m = some day) :
    1 ≤ day ∧ day ≤ daysInMonth y m := by
  have h28 := daysInMonth_ge y m h1 h2
  have hoff := weekdayOffset_lt wd y m
  unfold nthWeekdayOfMonth at h
  split at h
  · simp only [Option.some.injEq] at h
    omega
  · split at h
    · simp only [Option.some.injEq] at h
      omega
    · exact absurd h (by simp)

/-! ## Candidate-list lemmas -/

theorem pairwise_toList (o : Option Nat) : o.toList.Pairwise (fun a b => a < b) := by
  cases o <;> simp

theorem toList_length_le (o : Option Nat) : o.toList.length ≤ 7 := by
  cases o <;> simp

theorem mem_toList_eq (o : Option Nat) (x : Nat) (h : x ∈ o.toList) : o = some x := by
  cases o <;> simp_all

theorem weeklyCandidates_sorted (wds : List Nat) (s0 I k : Nat) :
    (weeklyCandidates wds s0 I k).Pairwise (fun a b => a < b) := by
  unfold weeklyCandidates
  exact List.Pairwise.map _ (fun a b hab => by omega)
    (List.Pairwise.filter _ (List.pairwise_lt_range 7))

theorem candidatesFor_sorted (p : RecurrencePattern) (k : Nat) :
    (candidatesFor p k).Pairwise (fun a b => a < b) := by
  unfold candidatesFor
  cases p.recurrenceType
  case daily => simp
  case weekly => exact weeklyCandidates_sorted _ _ _ _
  case monthly =>
    cases p.monthDay
    case some d => exact pairwise_toList _
    case none =>
      cases p.monthWeek
      case none => cases p.monthWeekDay <;> simp
      case some w =>
        cases p.monthWeekDay
        case none => simp
        case some wd => exact pairwise_toList _
  case yearly =>
    cases p.yearMonth
    case none => cases p.yearDay <;> simp
    case some ym =>
      cases p.yearDay
      case none => simp
      case some yd => exact pairwise_toList _

theorem candidatesFor_length (p : RecurrencePattern) (k : Nat) :
    (candidatesFor p k).length ≤ 7 := by
  unfold candidatesFor
  cases p.recurrenceType
  case daily => simp
  case weekly =>
    unfold weeklyCandidates
    rw [List.length_map]
    have := List.length_filter_le (fun w => p.weekDays.contains w) (List.range 7)
    simpa using this
  case monthly =>
    cases p.monthDay
    case some d => exact toList_length_le _
    case none =>
      cases p.monthWeek
      case none => cases p.monthWeekDay <;> simp
      case some w =>
        cases p.monthWeekDay
        case none => simp
        case some wd => exact toList_length_le _
  case yearly =>
    cases p.yearMonth
    case none => cases p.yearDay <;> simp
    case some ym =>
      cases p.yearDay
      case none => simp
      case some yd => exact toList_length_le _

/-! ## Validation extraction lemmas -/

theorem validatePattern_interval (p : RecurrencePattern) (h : validatePattern p = true) :
    1 ≤ p.interval := by
  unfold validatePattern at h
  simp only [Bool.and_eq_true, decide_eq_true_eq] at h
  exact h.1.1

theorem validatePattern_monthlyA (p : RecurrencePattern) (h : validatePattern p = true)
    (hrt : p.recurrenceType = .monthly) (D : Nat) (hmd : p.monthDay = some D) :
    1 ≤ D ∧ D ≤ 31 := by
  unfold validatePattern validTypeConfig at h
  rw [hrt, hmd] at h
  rcases hw : p.monthWeek with _ | w <;> rcases hwd : p.monthWeekDay with _ | wd <;>
    rw [hw, hwd] at h <;>
    simp only [Bool.and_eq_true, decide_eq_true_eq, Bool.false_eq_true, and_false,
      false_and] at h
  exact h.2

theorem validatePattern_monthlyB (p : RecurrencePattern) (h : validatePattern p = true)
    (hrt : p.recurrenceType = .monthly) (hmd : p.monthDay = none) (w wd : Nat)
    (hw : p.monthWeek = some w) (hwd : p.monthWeekDay = some wd) :
    1 ≤ w ∧ w ≤ 5 ∧ wd ≤ 6 := by
  unfold validatePattern validTypeConfig at h
  rw [hrt, hmd, hw, hwd] at h
  simp only [Bool.and_eq_true, decide_eq_true_eq] at h
  exact ⟨h.2.1.1, h.2.1.2, h.2.2⟩

theorem validatePattern_yearly (p : RecurrencePattern) (h : validatePattern p = true)
    (hrt : p.recurrenceType = .yearly) :
    ∃ m d, p.yearMonth = some m ∧ p.yearDay = some d ∧ m ≤ 11 ∧ 1 ≤ d ∧ d ≤ 31 := by
  unfold validatePattern validTypeConfig at h
  rw [hrt] at h
  rcases hm : p.yearMonth with _ | m <;> rcases hd : p.yearDay with _ | d <;>
    rw [hm, hd] at h <;>
    simp only [Bool.and_eq_true, decide_eq_true_eq, Bool.false_eq_true, and_false,
      false_and] at h
  exact ⟨m, d, rfl, rfl, h.2.1.1, h.2.1.2, h.2.2⟩

/-! ## Loop lemmas -/

theorem processCandidates_inv (A : Nat) (T : Termination) (cs : List Nat) :
    ∀ (emitted : Nat) (acc : List Nat),
      acc.Pairwise (fun a b => b < a) →
      cs.Pairwise (fun a b => a < b) →
      (∀ a ∈ acc, ∀ c ∈ cs, a < c) →
      (processCandidates A T cs emitted acc).2.1.Pairwise (fun a b => b < a) ∧
        (∀ x ∈ (processCandidates A T cs emitted acc).2.1,
          x ∈ acc ∨ (x ∈ cs ∧ A ≤ x)) := by
  induction cs with
  | nil =>
      intro emitted acc hacc _ _
      unfold processCandidates
      exact ⟨hacc, fun x hx => Or.inl hx⟩
  | cons c rest ih =>
      intro emitted acc hacc hcs hsep
      unfold processCandidates
      by_cases hca : c < A
      · rw [if_pos hca]
        obtain ⟨hs, hm⟩ := ih emitted acc hacc (List.Pairwise.of_cons hcs)
          (fun a ha x hx => hsep a ha x (List.mem_cons_of_mem c hx))
        refine ⟨hs, fun x hx => ?_⟩
        rcases hm x hx with h1 | ⟨h1, h2⟩
        · exact Or.inl h1
        · exact Or.inr ⟨List.mem_cons_of_mem c h1, h2⟩
      · rw [if_neg hca]
        by_cases hstop : stopNow T emitted c = true
        · rw [if_pos hstop]
          exact ⟨hacc, fun x hx => Or.inl hx⟩
        · rw [if_neg hstop]
          have hacc2 : (c :: acc).Pairwise (fun a b => b < a) := by
            rw [List.pairwise_cons]
            exact ⟨fun a ha => hsep a ha c (List.mem_cons_self c rest), hacc⟩
          have hsep2 : ∀ a ∈ c :: acc, ∀ x ∈ rest, a < x := by
            intro a ha x hx
            rcases List.mem_cons.mp ha with rfl | ha
            · exact List.rel_of_pairwise_cons hcs hx
            · exact hsep a ha x (List.mem_cons_of_mem c hx)
          obtain ⟨hs, hm⟩ := ih (emitted + 1) (c :: acc) hacc2
            (List.Pairwise.of_cons hcs) hsep2
          refine ⟨hs, fun x hx => ?_⟩
          rcases hm x hx with hx1 | ⟨hx1, hx2⟩
          · rcases List.mem_cons.mp hx1 with rfl | hx1
            · exact Or.inr ⟨List.mem_cons_self _ _, Nat.le_of_not_lt hca⟩
            · exact Or.inl hx1
          · exact Or.inr ⟨List.mem_cons_of_mem c hx1, hx2⟩

theorem processCandidates_count (A : Nat) (T : Termination) (cs : List Nat) :
    ∀ (emitted : Nat) (acc : List Nat),
      (processCandidates A T cs emitted acc).1 + acc.length =
        emitted + (processCandidates A T cs emitted acc).2.1.length := by
  induction cs with
  | nil =>
      intro e acc
      unfold processCandidates
      rfl
  | cons c rest ih =>
      intro e acc
      unfold processCandidates
      by_cases hca : c < A
      · rw [if_pos hca]
        exact ih e acc
      · rw [if_neg hca]
        by_cases hstop : stopNow T e c = true
        · rw [if_pos hstop]
        · rw [if_neg hstop]
          have := ih (e + 1) (c :: acc)
          simp only [List.length_cons] at this ⊢
          omega

theorem processCandidates_cap (A : Nat) (cs : List Nat) :
    ∀ (emitted : Nat) (acc : List Nat), emitted ≤ maxOccurrences →
      (processCandidates A .unbounded cs emitted acc).1 ≤ maxOccurrences := by
  induction cs with
  | nil =>
      intro e acc he
      unfold processCandidates
      exact he
  | cons c rest ih =>
      intro e acc he
      unfold processCandidates
      by_cases hca : c < A
      · rw [if_pos hca]
        exact ih e acc he
      · rw [if_neg hca]
        by_cases hstop : stopNow .unbounded e c = true
        · rw [if_pos hstop]
          exact he
        · rw [if_neg hstop]
          have he2 : ¬ (maxOccurrences ≤ e) := by
            have : stopNow .unbounded e c = decide (maxOccurrences ≤ e) := rfl
            rw [this] at hstop
            simpa using hstop
          exact ih (e + 1) (c :: acc) (by omega)

theorem processCandidates_endDate (A d : Nat) (cs : List Nat) :
    ∀ (emitted : Nat) (acc : List Nat),
      (∀ x ∈ acc, x ≤ d) →
      ∀ x ∈ (processCandidates A (.endDate d) cs emitted acc).2.1, x ≤ d := by
  induction cs with
  | nil =>
      intro e acc hacc
      unfold processCandidates
      exact hacc
  | cons c rest ih =>
      intro e acc hacc
      unfold processCandidates
      by_cases hca : c < A
      · rw [if_pos hca]
        exact ih e acc hacc
      · rw [if_neg hca]
        by_cases hstop : stopNow (.endDate d) e c = true
        · rw [if_pos hstop]
          exact hacc
        · rw [if_neg hstop]
          have hcd : c ≤ d := by
            have : stopNow (.endDate d) e c = decide (d < c) := rfl
            rw [this] at hstop
            simp only [decide_eq_true_eq] at hstop
            omega
          refine ih (e + 1) (c :: acc) ?_
          intro x hx
          rcases List.mem_cons.mp hx with rfl | hx
          · exact hcd
          · exact hacc x hx

theorem processCandidates_len (A : Nat) (T : Termination) (cs : List Nat) :
    ∀ (emitted : Nat) (acc : List Nat),
      (processCandidates A T cs emitted acc).2.1.length ≤ acc.length + cs.length := by
  induction cs with
  | nil =>
      intro e acc
      unfold processCandidates
      simp
  | cons c rest ih =>
      intro e acc
      unfold processCandidates
      by_cases hca : c < A
      · rw [if_pos hca]
        have := ih e acc
        simp only [List.length_cons]
        omega
      · rw [if_neg hca]
        by_cases hstop : stopNow T e c = true
        · rw [if_pos hstop]
          simp only [List.length_cons]
          omega
        · rw [if_neg hstop]
          have := ih (e + 1) (c :: acc)
          simp only [List.length_cons] at this ⊢
          omega

theorem processCandidates_single (A : Nat) (T : Termination) (c e : Nat) (acc : List Nat)
    (h : A ≤ c) :
    processCandidates A T [c] e acc = (e, acc, true) ∨
      processCandidates A T [c] e acc = (e + 1, c :: acc, false) := by
  unfold processCandidates
  rw [if_neg (by omega)]
  by_cases hstop : stopNow T e c = true
  · rw [if_pos hstop]
    exact Or.inl rfl
  · rw [if_neg hstop]
    unfold processCandidates
    exact Or.inr rfl

/-! ## Per-type candidate equations -/

theorem candidatesFor_daily (p : RecurrencePattern) (hrt : p.recurrenceType = .daily)
    (k : Nat) : candidatesFor p k = [toRd p.anchorDate + k * p.interval] := by
  unfold candidatesFor
  rw [hrt]

theorem candidatesFor_weekly (p : RecurrencePattern) (hrt : p.recurrenceType = .weekly)
    (k : Nat) : candidatesFor p k =
      weeklyCandidates p.weekDays (toRd p.anchorDate - toRd p.anchorDate % 7)
        p.interval k := by
  unfold candidatesFor
  rw [hrt]

theorem candidatesFor_monthlyA (p : RecurrencePattern) (hrt : p.recurrenceType = .monthly)
    (D : Nat) (hmd : p.monthDay = some D) (k : Nat) :
    candidatesFor p k = (monthlyModeACandidate D
      (monthIndex p.anchorDate.year p.anchorDate.month + k * p.interval)).toList := by
  unfold candidatesFor
  rw [hrt, hmd]

theorem candidatesFor_monthlyB (p : RecurrencePattern) (hrt : p.recurrenceType = .monthly)
    (hmd : p.monthDay = none) (w wd : Nat) (hw : p.monthWeek = some w)
    (hwd : p.monthWeekDay = some wd) (k : Nat) :
    candidatesFor p k = (monthlyModeBCandidate w wd
      (monthIndex p.anchorDate.year p.anchorDate.month + k * p.interval)).toList := by
  unfold candidatesFor
  rw [hrt, hmd, hw, hwd]

theorem candidatesFor_monthly_noWeek (p : RecurrencePattern)
    (hrt : p.recurrenceType = .monthly) (hmd : p.monthDay = none)
    (hw : p.monthWeek = none) (k : Nat) : candidatesFor p k = [] := by
  unfold candidatesFor
  rw [hrt, hmd, hw]

theorem candidatesFor_monthly_noWeekDay (p : RecurrencePattern)
    (hrt : p.recurrenceType = .monthly) (hmd : p.monthDay = none) (w : Nat)
    (hw : p.monthWeek = some w) (hwd : p.monthWeekDay = none) (k : Nat) :
    candidatesFor p k = [] := by
  unfold candidatesFor
  rw [hrt, hmd, hw, hwd]

theorem candidatesFor_yearly (p : RecurrencePattern) (hrt : p.recurrenceType = .yearly)
    (ym yd : Nat) (hym : p.yearMonth = some ym) (hyd : p.yearDay = some yd) (k : Nat) :
    candidatesFor p k =
      (yearlyCandidate ym yd (p.anchorDate.year + k * p.interval)).toList := by
  unfold candidatesFor
  rw [hrt, hym, hyd]

/-! ## Cross-step monotonicity -/

theorem stepMul_lt (k k' I : Nat) (hI : 1 ≤ I) (h : k < k') : k * I < k' * I := by
  have h1 : (k + 1) * I ≤ k' * I := Nat.mul_le_mul_right _ (by omega)
  have h2 : (k + 1) * I = k * I + I := Nat.succ_mul k I
  omega

theorem toRd_mod_eq (t d : Nat) (hd : 1 ≤ d) :
    toRd ⟨t / 12, t % 12 + 1, d⟩ = monthStart t + (d - 1) := by
  have h := toRd_eq_monthStart (t / 12) (t % 12 + 1) d (by omega) (by omega) hd
  have e : 12 * (t / 12) + (t % 12 + 1 - 1) = t := by omega
  rw [e] at h
  exact h

theorem candidate_rd_lt (t t' d d' : Nat) (ht12 : 12 ≤ t) (htt : t < t')
    (hd1 : 1 ≤ d) (hd2 : d ≤ daysInMonth (t / 12) (t % 12 + 1)) (hd1' : 1 ≤ d') :
    toRd ⟨t / 12, t % 12 + 1, d⟩ < toRd ⟨t' / 12, t' % 12 + 1, d'⟩ := by
  rw [toRd_mod_eq t d hd1, toRd_mod_eq t' d' hd1']
  exact monthStart_day_lt t t' d d' ht12 htt hd1 hd2 hd1'

theorem yearly_rd_lt (y y' ym yd yd' : Nat) (hy : 1 ≤ y) (hyy : y < y') (hym : ym ≤ 11)
    (hd1 : 1 ≤ yd) (hd2 : yd ≤ daysInMonth y (ym + 1)) (hd1' : 1 ≤ yd') :
    toRd ⟨y, ym + 1, yd⟩ < toRd ⟨y', ym + 1, yd'⟩ := by
  have e1 : (12 * y + ym) / 12 = y := by omega
  have e2 : (12 * y + ym) % 12 + 1 = ym + 1 := by omega
  have e1' : (12 * y' + ym) / 12 = y' := by omega
  have e2' : (12 * y' + ym) % 12 + 1 = ym + 1 := by omega
  have hd2' : yd ≤ daysInMonth ((12 * y + ym) / 12) ((12 * y + ym) % 12 + 1) := by
    rw [e1, e2]
    exact hd2
  have h := candidate_rd_lt (12 * y + ym) (12 * y' + ym) yd yd' (by omega) (by omega)
    hd1 hd2' hd1'
  rw [e1, e2, e1', e2'] at h
  exact h

theorem candidatesFor_mono (p : RecurrencePattern)
    (hv : validatePattern p = true) (hy : 1 ≤ p.anchorDate.year)
    (hm1 : 1 ≤ p.anchorDate.month) (hm2 : p.anchorDate.month ≤ 12)
    (k k' : Nat) (hkk : k < k') :
    ∀ c ∈ candidatesFor p k, ∀ x ∈ candidatesFor p k', c < x := by
  have hI : 1 ≤ p.interval := validatePattern_interval p hv
  have hmul : k * p.interval < k' * p.interval := stepMul_lt k k' p.interval hI hkk
  intro c hc x hx
  rcases hrt : p.recurrenceType with _ | _ | _ | _
  · rw [candidatesFor_daily p hrt] at hc hx
    simp only [List.mem_singleton] at hc hx
    omega
  · rw [candidatesFor_weekly p hrt] at hc hx
    unfold weeklyCandidates at hc hx
    simp only [List.mem_map, List.mem_filter, List.mem_range] at hc hx
    obtain ⟨w, ⟨hw7, _⟩, rfl⟩ := hc
    obtain ⟨w', ⟨hw7', _⟩, rfl⟩ := hx
    omega
  · have ht12 : 12 ≤ monthIndex p.anchorDate.year p.anchorDate.month := by
      unfold monthIndex
      omega
    rcases hmd : p.monthDay with _ | D
    · rcases hw : p.monthWeek with _ | w
      · rw [candidatesFor_monthly_noWeek p hrt hmd hw] at hc
        simp at hc
      · rcases hwd : p.monthWeekDay with _ | wd
        · rw [candidatesFor_monthly_noWeekDay p hrt hmd w hw hwd] at hc
          simp at hc
        · rw [candidatesFor_monthlyB p hrt hmd w wd hw hwd] at hc hx
          have hcb := mem_toList_eq _ _ hc
          have hxb := mem_toList_eq _ _ hx
          unfold monthlyModeBCandidate at hcb hxb
          rw [Option.map_eq_some'] at hcb hxb
          obtain ⟨day, hday, rfl⟩ := hcb
          obtain ⟨day', hday', rfl⟩ := hxb
          obtain ⟨hday1, hday2⟩ := nthWeekdayOfMonth_bounds w wd _ _ day
            (by omega) (by omega) hday
          obtain ⟨hday1', _⟩ := nthWeekdayOfMonth_bounds w wd _ _ day'
            (by omega) (by omega) hday'
          exact candidate_rd_lt _ _ day day' (by omega) (by omega) hday1 hday2 hday1'
    · rw [candidatesFor_monthlyA p hrt D hmd] at hc hx
      have hcb := mem_toList_eq _ _ hc
      have hxb := mem_toList_eq _ _ hx
      obtain ⟨hD1, _⟩ := validatePattern_monthlyA p hv hrt D hmd
      unfold monthlyModeACandidate at hcb hxb
      split at hcb
      · simp only [Option.some.injEq] at hcb
        split at hxb
        · simp only [Option.some.injEq] at hxb
          subst hcb
          subst hxb
          rename_i hdim _
          exact candidate_rd_lt _ _ D D (by omega) (by omega) hD1 hdim hD1
        · exact absurd hxb (by simp)
      · exact absurd hcb (by simp)
  · obtain ⟨ym, yd, hym, hyd, hym11, hyd1, _⟩ := validatePattern_yearly p hv hrt
    rw [candidatesFor_yearly p hrt ym yd hym hyd] at hc hx
    have hcb := mem_toList_eq _ _ hc
    have hxb := mem_toList_eq _ _ hx
    unfold yearlyCandidate at hcb hxb
    split at hcb
    · simp only [Option.some.injEq] at hcb
      split at hxb
      · simp only [Option.some.injEq] at hxb
        subst hcb
        subst hxb
        rename_i hdim _
        exact yearly_rd_lt _ _ ym yd yd (by omega) (by omega) hym11 hyd1 hdim hyd1
      · exact absurd hxb (by simp)
    · exact absurd hcb (by simp)

/-! ## Expansion loop invariants -/

theorem expandFrom_inv (p : RecurrencePattern)
    (hmono : ∀ k k', k < k' → ∀ c ∈ candidatesFor p k, ∀ x ∈ candidatesFor p k', c < x)
    (fuel : Nat) :
    ∀ (k emitted : Nat) (acc : List Nat),
      acc.Pairwise (fun a b => b < a) →
      (∀ a ∈ acc, ∀ k', k ≤ k' → ∀ c ∈ candidatesFor p k', a < c) →
      (∀ a ∈ acc, toRd p.anchorDate ≤ a) →
      (expandFrom p fuel k emitted acc).Pairwise (fun a b => a < b) ∧
        ∀ x ∈ expandFrom p fuel k emitted acc, toRd p.anchorDate ≤ x := by
  induction fuel with
  | zero =>
      intro k e acc hacc hsep hA
      unfold expandFrom
      exact ⟨List.pairwise_reverse.mpr hacc, fun x hx => hA x (List.mem_reverse.mp hx)⟩
  | succ n ih =>
      intro k e acc hacc hsep hA
      unfold expandFrom
      rcases hps : processCandidates (toRd p.anchorDate) p.termination (candidatesFor p k)
          e acc with ⟨e2, acc2, stop⟩
      obtain ⟨hs2, hm2⟩ := processCandidates_inv (toRd p.anchorDate) p.termination
        (candidatesFor p k) e acc hacc (candidatesFor_sorted p k)
        (fun a ha c hc => hsep a ha k (le_refl k) c hc)
      rw [hps] at hs2 hm2
      simp only [hps]
      have hA2 : ∀ a ∈ acc2, toRd p.anchorDate ≤ a := by
        intro a ha
        rcases hm2 a ha with h1 | ⟨_, h2⟩
        · exact hA a h1
        · exact h2
      cases stop
      · simp only [Bool.false_eq_true, if_false]
        refine ih (k + 1) e2 acc2 hs2 ?_ hA2
        intro a ha k' hk' c hc
        rcases hm2 a ha with h1 | ⟨h1, _⟩
        · exact hsep a h1 k' (by omega) c hc
        · exact hmono k k' (by omega) a h1 c hc
      · simp only [if_true]
        exact ⟨List.pairwise_reverse.mpr hs2, fun x hx => hA2 x (List.mem_reverse.mp hx)⟩

theorem expandFrom_endDate (p : RecurrencePattern) (d : Nat)
    (hT : p.termination = .endDate d) (fuel : Nat) :
    ∀ (k emitted : Nat) (acc : List Nat),
      (∀ x ∈ acc, x ≤ d) →
      ∀ x ∈ expandFrom p fuel k emitted acc, x ≤ d := by
  induction fuel with
  | zero =>
      intro k e acc hacc x hx
      unfold expandFrom at hx
      exact hacc x (List.mem_reverse.mp hx)
  | succ n ih =>
      intro k e acc hacc x hx
      unfold expandFrom at hx
      rcases hps : processCandidates (toRd p.anchorDate) p.termination (candidatesFor p k)
          e acc with ⟨e2, acc2, stop⟩
      rw [hps] at hx
      have hacc2 : ∀ z ∈ acc2, z ≤ d := by
        intro z hz
        have h := processCandidates_endDate (toRd p.anchorDate) d (candidatesFor p k)
          e acc hacc z
        rw [← hT, hps] at h
        exact h hz
      cases stop
      · simp only [Bool.false_eq_true, if_false] at hx
        exact ih (k + 1) e2 acc2 hacc2 x hx
      · simp only [if_true] at hx
        exact hacc2 x (List.mem_reverse.mp hx)

theorem expandFrom_unbounded_len (p : RecurrencePattern)
    (hT : p.termination = .unbounded) (fuel : Nat) :
    ∀ (k emitted : Nat) (acc : List Nat),
      emitted = acc.length → emitted ≤ maxOccurrences →
      (expandFrom p fuel k emitted acc).length ≤ maxOccurrences := by
  induction fuel with
  | zero =>
      intro k e acc helen hcap
      unfold expandFrom
      rw [List.length_reverse]
      omega
  | succ n ih =>
      intro k e acc helen hcap
      unfold expandFrom
      rcases hps : processCandidates (toRd p.anchorDate) p.termination (candidatesFor p k)
          e acc with ⟨e2, acc2, stop⟩
      simp only [hps]
      have hcount := processCandidates_count (toRd p.anchorDate) p.termination
        (candidatesFor p k) e acc
      rw [hps] at hcount
      simp only at hcount
      have hcap2 : e2 ≤ maxOccurrences := by
        have h := processCandidates_cap (toRd p.anchorDate) (candidatesFor p k) e acc hcap
        rw [← hT, hps] at h
        exact h
      cases stop
      · simp only [Bool.false_eq_true, if_false]
        exact ih (k + 1) e2 acc2 (by omega) hcap2
      · simp only [if_true]
        rw [List.length_reverse]
        omega

theorem expandFrom_len (p : RecurrencePattern) (fuel : Nat) :
    ∀ (k emitted : Nat) (acc : List Nat),
      (expandFrom p fuel k emitted acc).length ≤ acc.length + 7 * fuel := by
  induction fuel with
  | zero =>
      intro k e acc
      unfold expandFrom
      rw [List.length_reverse]
      omega
  | succ n ih =>
      intro k e acc
      unfold expandFrom
      rcases hps : processCandidates (toRd p.anchorDate) p.termination (candidatesFor p k)
          e acc with ⟨e2, acc2, stop⟩
      simp only [hps]
      have hlen := processCandidates_len (toRd p.anchorDate) p.termination
        (candidatesFor p k) e acc
      rw [hps] at hlen
      simp only at hlen
      have hc7 := candidatesFor_length p k
      cases stop
      · simp only [Bool.false_eq_true, if_false]
        have := ih (k + 1) e2 acc2
        omega
      · simp only [if_true]
        rw [List.length_reverse]
        omega

theorem expandFrom_daily (p : RecurrencePattern) (hrt : p.recurrenceType = .daily)
    (fuel : Nat) :
    ∀ (k : Nat) (acc : List Nat),
      acc = ((List.range k).map (fun i => toRd p.anchorDate + i * p.interval)).reverse →
      ∃ m, expandFrom p fuel k k acc =
        (List.range m).map (fun i => toRd p.anchorDate + i * p.interval) := by
  induction fuel with
  | zero =>
      intro k acc hacc
      refine ⟨k, ?_⟩
      unfold expandFrom
      rw [hacc, List.reverse_reverse]
  | succ n ih =>
      intro k acc hacc
      unfold expandFrom
      rw [candidatesFor_daily p hrt]
      rcases processCandidates_single (toRd p.anchorDate) p.termination
        (toRd p.anchorDate + k * p.interval) k acc (by omega) with hq | hq
      · refine ⟨k, ?_⟩
        simp only [hq, if_true]
        rw [hacc, List.reverse_reverse]
      · simp only [hq, Bool.false_eq_true, if_false]
        refine ih (k + 1) _ ?_
        rw [hacc, List.range_succ]
        simp

/-! ## More validation extraction lemmas -/

theorem generate_error_of_not_valid (p : RecurrencePattern)
    (h : ¬ (validatePattern p = true)) : generate p = .error .invalidPattern := by
  unfold generate
  rw [if_neg h]

theorem generate_ok_of_valid (p : RecurrencePattern) (h : validatePattern p = true) :
    generate p = .ok (expandFrom p maxIterations 0 0 []) := by
  unfold generate
  rw [if_pos h]

theorem validatePattern_weekly (p : RecurrencePattern) (h : validatePattern p = true)
    (hrt : p.recurrenceType = .weekly) :
    p.weekDays ≠ [] ∧ ∀ w ∈ p.weekDays, w ≤ 6 := by
  unfold validatePattern validTypeConfig at h
  rw [hrt] at h
  simp only [Bool.and_eq_true, decide_eq_true_eq, Bool.not_eq_true', List.all_eq_true] at h
  obtain ⟨-, ⟨hne, hall⟩, -⟩ := h
  constructor
  · intro he
    rw [he] at hne
    simp at hne
  · intro w hw
    simpa using hall w hw

theorem validatePattern_occ (p : RecurrencePattern) (n : Nat)
    (h : validatePattern p = true) (hT : p.termination = .occurrenceCount n) : 1 ≤ n := by
  unfold validatePattern validTermination at h
  rw [hT] at h
  simp only [Bool.and_eq_true, decide_eq_true_eq] at h
  exact h.1.2

theorem validatePattern_endDateBound (p : RecurrencePattern) (d : Nat)
    (h : validatePattern p = true) (hT : p.termination = .endDate d) :
    toRd p.anchorDate ≤ d := by
  unfold validatePattern validTermination at h
  rw [hT] at h
  simp only [Bool.and_eq_true, decide_eq_true_eq] at h
  exact h.1.2

theorem validatePattern_monthly_notBoth (p : RecurrencePattern)
    (h : validatePattern p = true) (hrt : p.recurrenceType = .monthly) (D : Nat)
    (hmd : p.monthDay = some D) : p.monthWeek = none ∧ p.monthWeekDay = none := by
  unfold validatePattern validTypeConfig at h
  rw [hrt, hmd] at h
  rcases hw : p.monthWeek with _ | w <;> rcases hwd : p.monthWeekDay with _ | wd <;>
    rw [hw, hwd] at h <;>
    simp only [Bool.and_eq_true, Bool.false_eq_true, and_false, false_and] at h
  exact ⟨rfl, rfl⟩

theorem validatePattern_monthly_notNone (p : RecurrencePattern)
    (h : validatePattern p = true) (hrt : p.recurrenceType = .monthly)
    (hmd : p.monthDay = none) :
    ∃ w wd, p.monthWeek = some w ∧ p.monthWeekDay = some wd := by
  unfold validatePattern validTypeConfig at h
  rw [hrt, hmd] at h
  rcases hw : p.monthWeek with _ | w <;> rcases hwd : p.monthWeekDay with _ | wd <;>
    rw [hw, hwd] at h <;>
    simp only [Bool.and_eq_true, Bool.false_eq_true, and_false, false_and] at h
  exact ⟨w, wd, rfl, rfl⟩

/-! ## Claim theorems -/

/-- C1: every pattern violating one of the section 3 invariants enumerated
in section 7 — interval below 1, Weekly with an empty weekday set, a
weekday, month-day, month-week, month-weekday, year-month or year-day
index outside its documented range, a Monthly pattern with both or neither
mode populated, an occurrence count below 1, or an end date earlier than
the anchor date — makes generate fail with InvalidPatternError rather than
silently coercing the pattern; in particular every Weekly pattern with an
empty weekDays set is rejected. -/
theorem generate_rejects_invalid_patterns (p : RecurrencePattern) :
    (p.interval < 1 → generate p = .error .invalidPattern) ∧
    (p.recurrenceType = .weekly → p.weekDays = [] →
      generate p = .error .invalidPattern) ∧
    (p.recurrenceType = .weekly → (∃ w ∈ p.weekDays, 6 < w) →
      generate p = .error .invalidPattern) ∧
    (p.recurrenceType = .monthly → ∀ D, p.monthDay = some D → (D < 1 ∨ 31 < D) →
      generate p = .error .invalidPattern) ∧
    (p.recurrenceType = .monthly → ∀ w, p.monthWeek = some w → (w < 1 ∨ 5 < w) →
      generate p = .error .invalidPattern) ∧
    (p.recurrenceType = .monthly → ∀ wd, p.monthWeekDay = some wd → 6 < wd →
      generate p = .error .invalidPattern) ∧
    (p.recurrenceType = .yearly → ∀ m, p.yearMonth = some m → 11 < m →
      generate p = .error .invalidPattern) ∧
    (p.recurrenceType = .yearly → ∀ d, p.yearDay = some d → (d < 1 ∨ 31 < d) →
      generate p = .error .invalidPattern) ∧
    (p.recurrenceType = .monthly → ∀ D w, p.monthDay = some D → p.monthWeek = some w →
      generate p = .error .invalidPattern) ∧
    (p.recurrenceType = .monthly → p.monthDay = none → p.monthWeek = none →
      p.monthWeekDay = none → generate p = .error .invalidPattern) ∧
    (∀ n, p.termination = .occurrenceCount n → n < 1 →
      generate p = .error .invalidPattern) ∧
    (∀ d, p.termination = .endDate d → d < toRd p.anchorDate →
      generate p = .error .invalidPattern) := by
  refine ⟨?_, ?_, ?_, ?_, ?_, ?_, ?_, ?_, ?_, ?_, ?_, ?_⟩
  · intro h
    refine generate_error_of_not_valid p (fun hv => ?_)
    have := validatePattern_interval p hv
    omega
  · intro hrt he
    refine generate_error_of_not_valid p (fun hv => ?_)
    exact (validatePattern_weekly p hv hrt).1 he
  · intro hrt ⟨w, hw, hw6⟩
    refine generate_error_of_not_valid p (fun hv => ?_)
    have := (validatePattern_weekly p hv hrt).2 w hw
    omega
  · intro hrt D hmd hD
    refine generate_error_of_not_valid p (fun hv => ?_)
    have := validatePattern_monthlyA p hv hrt D hmd
    omega
  · intro hrt w hw hwr
    refine generate_error_of_not_valid p (fun hv => ?_)
    rcases hmd : p.monthDay with _ | D
    · obtain ⟨w', wd', hw', hwd'⟩ := validatePattern_monthly_notNone p hv hrt hmd
      rw [hw] at hw'
      injection hw' with he
      subst he
      have := validatePattern_monthlyB p hv hrt hmd w wd' hw hwd'
      omega
    · have := (validatePattern_monthly_notBoth p hv hrt D hmd).1
      rw [hw] at this
      exact Option.noConfusion this
  · intro hrt wd hwd hwr
    refine generate_error_of_not_valid p (fun hv => ?_)
    rcases hmd : p.monthDay with _ | D
    · obtain ⟨w', wd', hw', hwd'⟩ := validatePattern_monthly_notNone p hv hrt hmd
      rw [hwd] at hwd'
      injection hwd' with he
      subst he
      have := validatePattern_monthlyB p hv hrt hmd w' wd hw' hwd
      omega
    · have := (validatePattern_monthly_notBoth p hv hrt D hmd).2
      rw [hwd] at this
      exact Option.noConfusion this
  · intro hrt m hm hmr
    refine generate_error_of_not_valid p (fun hv => ?_)
    obtain ⟨m', d', hm', hd', hm11, -, -⟩ := validatePattern_yearly p hv hrt
    rw [hm] at hm'
    injection hm' with he
    subst he
    omega
  · intro hrt d hd hdr
    refine generate_error_of_not_valid p (fun hv => ?_)
    obtain ⟨m', d', hm', hd', -, hd1, hd31⟩ := validatePattern_yearly p hv hrt
    rw [hd] at hd'
    injection hd' with he
    subst he
    omega
  · intro hrt D w hmd hw
    refine generate_error_of_not_valid p (fun hv => ?_)
    have := (validatePattern_monthly_notBoth p hv hrt D hmd).1
    rw [hw] at this
    exact Option.noConfusion this
  · intro hrt hmd hw hwd
    refine generate_error_of_not_valid p (fun hv => ?_)
    obtain ⟨w', wd', hw', -⟩ := validatePattern_monthly_notNone p hv hrt hmd
    rw [hw] at hw'
    exact Option.noConfusion hw'
  · intro n hT hn
    refine generate_error_of_not_valid p (fun hv => ?_)
    have := validatePattern_occ p n hv hT
    omega
  · intro d hT hd
    refine generate_error_of_not_valid p (fun hv => ?_)
    have := validatePattern_endDateBound p d hv hT
    omega

/-- Witness for C1: the Weekly pattern with an empty weekday set from
scenario 6 of the spec is rejected. -/
theorem generate_rejects_invalid_patterns_witness :
    generate pEmptyWeekly = .error .invalidPattern :=
  (generate_rejects_invalid_patterns pEmptyWeekly).2.1 rfl rfl

theorem dayOfWeek_offset (wd y m j : Nat) (hwd : wd ≤ 6) :
    dayOfWeek (toRd ⟨y, m, 1 + weekdayOffset wd y m + 7 * j⟩) = wd := by
  have e : toRd ⟨y, m, 1⟩ = daysBeforeYear y + daysBeforeMonth y m + 1 := rfl
  show (daysBeforeYear y + daysBeforeMonth y m + (1 + weekdayOffset wd y m + 7 * j)) % 7
    = wd
  unfold weekdayOffset dayOfWeek
  rw [e]
  omega

/-- C2: Monthly mode A skips every candidate month shorter than monthDay —
the candidate is none, so nothing is emitted for that month, nothing is
clamped and nothing rolls over — and the concrete scenario with anchor
2024-01-31, interval 1, monthDay 31 and three occurrences yields exactly
2024-01-31, 2024-03-31 and 2024-05-31. -/
theorem monthlyModeA_skip_semantics :
    (∀ D t, daysInMonth (t / 12) (t % 12 + 1) < D → monthlyModeACandidate D t = none) ∧
    generate pMonthlyA =
      .ok [toRd ⟨2024, 1, 31⟩, toRd ⟨2024, 3, 31⟩, toRd ⟨2024, 5, 31⟩] := by
  constructor
  · intro D t h
    unfold monthlyModeACandidate
    rw [if_neg (by omega)]
  · rfl

/-- Witness for C2: February 2024 (absolute month 24289) has fewer than
31 days, so the mode A candidate for day 31 is none. -/
theorem monthlyModeA_skip_semantics_witness : monthlyModeACandidate 31 24289 = none :=
  monthlyModeA_skip_semantics.1 31 24289 (by decide)

/-- C3: a Yearly pattern on February 29 skips every non-leap candidate
year (the candidate is none: no roll to March 1 or February 28), and the
concrete scenario anchored 2024-01-01 with two occurrences yields exactly
2024-02-29 and 2028-02-29. -/
theorem yearlyFeb29_skip_semantics :
    (∀ y, isLeapYear y = false → yearlyCandidate 1 29 y = none) ∧
    generate pYearlyFeb29 = .ok [toRd ⟨2024, 2, 29⟩, toRd ⟨2028, 2, 29⟩] := by
  constructor
  · intro y hy
    unfold yearlyCandidate
    have hf : daysInMonth y (1 + 1) = 28 := by
      show daysInMonth y 2 = 28
      rw [daysInMonth_feb]
      unfold leapAdj
      rw [hy]
      rfl
    rw [if_neg (by omega)]
  · rfl

/-- Witness for C3: 2025 is not a leap year, so the February 29 candidate
for 2025 is none. -/
theorem yearlyFeb29_skip_semantics_witness : yearlyCandidate 1 29 2025 = none :=
  yearlyFeb29_skip_semantics.1 2025 (by decide)

/-- C4: Monthly mode B resolves the candidate day to the monthWeek-th
occurrence of weekday monthWeekDay counting from the 1st (the resolved day
has that weekday and lies in the monthWeek-th seven-day block for
monthWeek in 1..4); monthWeek = 5 resolves to the last such weekday of the
month; a month lacking the requested occurrence for monthWeek in 1..4 is
skipped; and the concrete scenario (anchor 2024-01-01, second Tuesday, two
occurrences) yields exactly 2024-01-09 and 2024-02-13. -/
theorem monthlyModeB_nth_weekday_semantics :
    (∀ week wd y m day, wd ≤ 6 → 1 ≤ m → m ≤ 12 →
      nthWeekdayOfMonth week wd y m = some day →
      dayOfWeek (toRd ⟨y, m, day⟩) = wd ∧
      (1 ≤ week → week ≤ 4 → 7 * (week - 1) < day ∧ day ≤ 7 * week) ∧
      (week = 5 → day ≤ daysInMonth y m ∧ daysInMonth y m < day + 7)) ∧
    (∀ week wd y m, week ≠ 5 →
      daysInMonth y m < 1 + weekdayOffset wd y m + 7 * (week - 1) →
      nthWeekdayOfMonth week wd y m = none) ∧
    generate pMonthlyB = .ok [toRd ⟨2024, 1, 9⟩, toRd ⟨2024, 2, 13⟩] := by
  refine ⟨?_, ?_, rfl⟩
  · intro week wd y m day hwd hm1 hm2 h
    obtain ⟨hd1, hd2⟩ := nthWeekdayOfMonth_bounds week wd y m day hm1 hm2 h
    have hoffb := weekdayOffset_lt wd y m
    have h28 := daysInMonth_ge y m hm1 hm2
    unfold nthWeekdayOfMonth at h
    split at h
    · rename_i h5
      simp only [Option.some.injEq] at h
      have hw5 : week = 5 := by simpa using h5
      subst h
      refine ⟨dayOfWeek_offset wd y m _ hwd, ?_, ?_⟩
      · intro _ h4
        omega
      · intro _
        exact ⟨hd2, by omega⟩
    · rename_i h5
      split at h
      · simp only [Option.some.injEq] at h
        have hw5 : week ≠ 5 := by simpa using h5
        subst h
        refine ⟨dayOfWeek_offset wd y m _ hwd, ?_, ?_⟩
        · intro h1 h4
          omega
        · intro h5e
          exact absurd h5e hw5
      · exact absurd h (by simp)
  · intro week wd y m h5 hlt
    have hb : (week == 5) = false := by
      simpa using h5
    unfold nthWeekdayOfMonth
    rw [hb]
    simp only [Bool.false_eq_true, if_false]
    rw [if_neg (by omega)]

/-- Witness for C4: the second Tuesday of January 2024 resolves to day 9,
and 2024-01-09 is indeed a Tuesday. -/
theorem monthlyModeB_nth_weekday_semantics_witness :
    dayOfWeek (toRd ⟨2024, 1, 9⟩) = 2 :=
  (monthlyModeB_nth_weekday_semantics.1 2 2 2024 1 9 (by decide) (by decide) (by decide)
    (by decide)).1

/-- C5: within each selected week the Weekly stepper emits one candidate
per selected weekday in strictly ascending weekday order (dates taken from
that week Sunday onward); a candidate strictly before the anchor is
discarded, so in week 0 weekdays earlier than the anchor weekday are
excluded while weekdays on or after it are included: the spec scenario
anchored Monday 2024-01-01 with weekdays Monday and Wednesday yields
2024-01-01, 2024-01-03, 2024-01-08, 2024-01-10, and the same pattern
anchored Tuesday 2024-01-02 drops the week 0 Monday but keeps the week 0
Wednesday. -/
theorem weekly_ascending_and_discard :
    (∀ wds s0 I k, (weeklyCandidates wds s0 I k).Pairwise (fun a b => a < b)) ∧
    generate pWeekly = .ok [toRd ⟨2024, 1, 1⟩, toRd ⟨2024, 1, 3⟩, toRd ⟨2024, 1, 8⟩,
      toRd ⟨2024, 1, 10⟩] ∧
    generate pWeeklyMidweek =
      .ok [toRd ⟨2024, 1, 3⟩, toRd ⟨2024, 1, 8⟩, toRd ⟨2024, 1, 10⟩] :=
  ⟨fun wds s0 I k => weeklyCandidates_sorted wds s0 I k, rfl, rfl⟩

/-- C6: for every pattern terminated by EndDate(d) the boundary is
inclusive: no emitted occurrence exceeds d, a candidate exactly equal to d
is emitted (the daily scenario ending exactly on candidate 2024-01-05
emits it and stops), and a candidate one day past the end date is not
emitted (with end date 2024-01-06 the next candidate 2024-01-07 is
excluded). -/
theorem endDate_boundary_inclusive :
    (∀ p d out, p.termination = .endDate d → generate p = .ok out →
      ∀ x ∈ out, x ≤ d) ∧
    generate pEndDateEq =
      .ok [toRd ⟨2024, 1, 1⟩, toRd ⟨2024, 1, 3⟩, toRd ⟨2024, 1, 5⟩] ∧
    generate pEndDateNear =
      .ok [toRd ⟨2024, 1, 1⟩, toRd ⟨2024, 1, 3⟩, toRd ⟨2024, 1, 5⟩] := by
  refine ⟨?_, rfl, rfl⟩
  intro p d out hT hgen
  by_cases hv : validatePattern p = true
  · rw [generate_ok_of_valid p hv] at hgen
    injection hgen with he
    subst he
    intro x hx
    exact expandFrom_endDate p d hT maxIterations 0 0 [] (by simp) x hx
  · rw [generate_error_of_not_valid p hv] at hgen
    exact absurd hgen (by simp)

/-- Witness for C6: the end date itself occurs in the expansion of the
scenario pattern and respects the bound. -/
theorem endDate_boundary_inclusive_witness :
    toRd ⟨2024, 1, 5⟩ ≤ toRd ⟨2024, 1, 5⟩ :=
  endDate_boundary_inclusive.1 pEndDateEq (toRd ⟨2024, 1, 5⟩)
    (expandFrom pEndDateEq maxIterations 0 0 []) rfl rfl
    (toRd ⟨2024, 1, 5⟩) (by decide)

/-- C7: a valid Daily pattern emits exactly the dates anchor + k * interval
for k = 0, 1, 2, ... with no further filtering (the output is always a
prefix of that stream), consecutive occurrences differ by exactly the
interval, and the concrete scenario (anchor 2024-01-01, interval 2, three
occurrences) yields exactly 2024-01-01, 2024-01-03, 2024-01-05. -/
theorem daily_stepping_semantics :
    (∀ p out, p.recurrenceType = .daily → generate p = .ok out →
      ∃ m, out = (List.range m).map (fun i => toRd p.anchorDate + i * p.interval)) ∧
    (∀ p out, p.recurrenceType = .daily → generate p = .ok out →
      out.Chain' (fun a b => b = a + p.interval)) ∧
    generate pDaily = .ok [toRd ⟨2024, 1, 1⟩, toRd ⟨2024, 1, 3⟩, toRd ⟨2024, 1, 5⟩] := by
  have main : ∀ p out, p.recurrenceType = .daily → generate p = .ok out →
      ∃ m, out = (List.range m).map (fun i => toRd p.anchorDate + i * p.interval) := by
    intro p out hrt hgen
    by_cases hv : validatePattern p = true
    · rw [generate_ok_of_valid p hv] at hgen
      injection hgen with he
      subst he
      exact expandFrom_daily p hrt maxIterations 0 [] (by simp)
    · rw [generate_error_of_not_valid p hv] at hgen
      exact absurd hgen (by simp)
  refine ⟨main, ?_, rfl⟩
  intro p out hrt hgen
  obtain ⟨m, rfl⟩ := main p out hrt hgen
  rw [List.chain'_map]
  cases m with
  | zero => simp
  | succ n =>
      rw [List.chain'_range_succ]
      intro i hi
      have := Nat.succ_mul i p.interval
      omega

/-- Witness for C7: the scenario expansion steps by exactly the interval. -/
theorem daily_stepping_semantics_witness :
    (expandFrom pDaily maxIterations 0 0 []).Chain' (fun a b => b = a + pDaily.interval) :=
  daily_stepping_semantics.2.1 pDaily (expandFrom pDaily maxIterations 0 0 []) rfl rfl

/-- C8: for every valid pattern (with a well-formed anchor date) the
sequence returned by generate is strictly ascending, has no duplicates,
and every emitted day — in particular the first — is at or after the
anchor date. -/
theorem generate_ascending_distinct_bounded (p : RecurrencePattern) (out : List Nat)
    (hd : validDate p.anchorDate) (hgen : generate p = .ok out) :
    out.Pairwise (fun a b => a < b) ∧ out.Nodup ∧
      ∀ x ∈ out, toRd p.anchorDate ≤ x := by
  by_cases hv : validatePattern p = true
  · rw [generate_ok_of_valid p hv] at hgen
    injection hgen with he
    subst he
    obtain ⟨hy, hm1, hm2, -, -⟩ := hd
    have hmono := candidatesFor_mono p hv hy hm1 hm2
    obtain ⟨hs, hb⟩ := expandFrom_inv p (fun k k' hkk => hmono k k' hkk) maxIterations 0 0 []
      (by simp) (by simp) (by simp)
    exact ⟨hs, hs.imp (fun hab => Nat.ne_of_lt hab), hb⟩
  · rw [generate_error_of_not_valid p hv] at hgen
    exact absurd hgen (by simp)

/-- Witness for C8: the weekly scenario expansion is strictly ascending. -/
theorem generate_ascending_distinct_bounded_witness :
    (expandFrom pWeekly maxIterations 0 0 []).Pairwise (fun a b => a < b) :=
  (generate_ascending_distinct_bounded pWeekly (expandFrom pWeekly maxIterations 0 0 [])
    (by decide) rfl).1

set_option maxRecDepth 8000 in
/-- C9: generate terminates for every valid pattern: the loop is bounded
by the iteration cap (so the output never exceeds 7 dates per examined
step), Unbounded patterns are additionally capped at maxOccurrences
emitted dates, skipped candidates still advance the step counter, and the
pathological valid pattern Yearly April 31 — whose every candidate is
skipped — still returns (the empty sequence). -/
theorem generate_terminates_capped :
    (∀ p out, p.termination = .unbounded → generate p = .ok out →
      out.length ≤ maxOccurrences) ∧
    (∀ p out, generate p = .ok out → out.length ≤ 7 * maxIterations) ∧
    (∀ k, candidatesFor pAllSkipped k = []) ∧
    generate pAllSkipped = .ok [] := by
  refine ⟨?_, ?_, ?_, rfl⟩
  · intro p out hT hgen
    by_cases hv : validatePattern p = true
    · rw [generate_ok_of_valid p hv] at hgen
      injection hgen with he
      subst he
      exact expandFrom_unbounded_len p hT maxIterations 0 0 [] rfl (Nat.zero_le _)
    · rw [generate_error_of_not_valid p hv] at hgen
      exact absurd hgen (by simp)
  · intro p out hgen
    by_cases hv : validatePattern p = true
    · rw [generate_ok_of_valid p hv] at hgen
      injection hgen with he
      subst he
      have := expandFrom_len p maxIterations 0 0 []
      simpa using this
    · rw [generate_error_of_not_valid p hv] at hgen
      exact absurd hgen (by simp)
  · intro k
    rw [candidatesFor_yearly pAllSkipped rfl 3 31 rfl rfl k]
    unfold yearlyCandidate
    have hf : daysInMonth (pAllSkipped.anchorDate.year + k * pAllSkipped.interval) (3 + 1)
        = 30 := rfl
    rw [if_neg (by omega)]
    rfl

/-- Witness for C9: the unbounded daily pattern expansion is capped. -/
theorem generate_terminates_capped_witness :
    (expandFrom pUnboundedDaily maxIterations 0 0 []).length ≤ maxOccurrences :=
  generate_terminates_capped.1 pUnboundedDaily
    (expandFrom pUnboundedDaily maxIterations 0 0 []) rfl rfl

/-- C10: the public input type does not make the two termination fields
mutually exclusive: endAfterOccurrences and endDate are independent
optional fields of RecurrenceConfig, so configs populating both at once,
and configs populating neither, are well-typed — and generateDates accepts
both kinds at its interface (producing a date list rather than rejecting
them by type). -/
theorem recurrenceConfig_termination_fields_independent :
    (∀ (o1 : Option Nat) (o2 : Option (Option Date)), ∃ c : RecurrenceConfig,
      c.endAfterOccurrences = o1 ∧ c.endDate = o2) ∧
    cfgBothTermination.endAfterOccurrences = some 3 ∧
    cfgBothTermination.endDate = some (some ⟨2024, 12, 31⟩) ∧
    cfgNoTermination.endAfterOccurrences = none ∧
    cfgNoTermination.endDate = none ∧
    generateDates ⟨2024, 1, 1⟩ .daily cfgBothTermination =
      [toRd ⟨2024, 1, 1⟩, toRd ⟨2024, 1, 3⟩, toRd ⟨2024, 1, 5⟩] ∧
    (generateDates ⟨2024, 1, 1⟩ .daily cfgNoTermination).length = maxOccurrences := by
  refine ⟨?_, rfl, rfl, rfl, rfl, rfl, rfl⟩
  intro o1 o2
  exact ⟨⟨none, none, none, none, none, none, none, o1, o2⟩, rfl, rfl⟩
